import Mathlib

/-!
Shallow embedding of the ledger and withdrawal-approval core of the
single-file Telegram BNB-earning bot (`bot.py`).

Monetary values (`Decimal` text columns in SQLite) are modelled as exact
rationals; timestamps as integer UTC seconds.  The external ISO-8601
codec (`datetime.isoformat` / `datetime.fromisoformat`) and the external
EIP-55 checksum library (`eth_utils.to_checksum_address`) are modelled as
abstract function parameters, since the source only calls them.
-/

namespace BnbBot

/-- Runtime configuration (environment values, `bot.py` lines 40-53)
together with the external timestamp codec.  `parseIso` returns `none`
when `datetime.fromisoformat` raises. -/
structure Config where
  ADMIN_ID : ℤ
  REF_BONUS : ℚ
  DAILY_BONUS : ℚ
  MIN_WITHDRAW : ℚ
  isoOf : ℤ → String
  parseIso : String → Option ℤ

/-- One row of the `users` table (`db_init`).  `balance` is stored as
decimal text; defaults: balance 0, referrals 0, flags 0, wallet and
last_bonus NULL. -/
structure UserRow where
  username : Option String
  balance : ℚ
  referrals : ℕ
  referred_by : Option ℤ
  wallet : Option String
  last_bonus : Option String
  joined_channel : Bool
  subscribed_yt : Bool
deriving Repr, DecidableEq

/-- One row of the `withdrawals` table (`db_init`).  `status` is a plain
string in the source: 'pending', 'approved' or 'rejected'. -/
structure WRow where
  telegram_id : ℤ
  amount : ℚ
  wallet : String
  status : String
deriving Repr, DecidableEq

/-- The SQLite database: the `users` table keyed by telegram id, the
`withdrawals` table keyed by its AUTOINCREMENT id, and the next id the
AUTOINCREMENT column will allocate. -/
structure DB where
  users : ℤ → Option UserRow
  withdrawals : ℕ → Option WRow
  next_wid : ℕ

/-- Empty database right after `db_init`; AUTOINCREMENT ids start at 1. -/
def initDB : DB :=
  { users := fun _ => none, withdrawals := fun _ => none, next_wid := 1 }

/-- Write one row of the `users` table (SQL row replace at key `tid`). -/
def setUser (db : DB) (tid : ℤ) (r : UserRow) : DB :=
  { db with users := fun t => if t = tid then some r else db.users t }

/-- Write one row of the `withdrawals` table. -/
def setW (db : DB) (wid : ℕ) (w : WRow) : DB :=
  { db with withdrawals := fun i => if i = wid then some w else db.withdrawals i }

/-- Row inserted by `ensure_user`: `INSERT OR IGNORE INTO users
(telegram_id, username, balance, referred_by) VALUES (?, ?, '0', ?)`,
remaining columns take their schema defaults. -/
def defaultUser (username : Option String) (referred_by : Option ℤ) : UserRow :=
  { username := username, balance := 0, referrals := 0, referred_by := referred_by,
    wallet := none, last_bonus := none, joined_channel := false, subscribed_yt := false }

/-- Source `get_user_row(tid)`. -/
def get_user_row (db : DB) (tid : ℤ) : Option UserRow :=
  db.users tid

/-- Source `ensure_user(tid, username, referred_by)`: INSERT OR IGNORE,
so an existing row is left untouched. -/
def ensure_user (db : DB) (tid : ℤ) (username : Option String) (referred_by : Option ℤ) : DB :=
  match db.users tid with
  | some _ => db
  | none => setUser db tid (defaultUser username referred_by)

/-- SQL `UPDATE users SET ... WHERE telegram_id=?`: applies `f` to the
row when it exists, no-op otherwise. -/
def updateUser (db : DB) (tid : ℤ) (f : UserRow → UserRow) : DB :=
  match db.users tid with
  | some r => setUser db tid (f r)
  | none => db

/-- Source `add_balance(tid, amount)`: ensure the row, read the current
balance (`Decimal('0')` when the row is absent), write `cur + amount`. -/
def add_balance (db : DB) (tid : ℤ) (amount : ℚ) : DB :=
  let db1 := ensure_user db tid none none
  let cur : ℚ := match get_user_row db1 tid with
    | some r => r.balance
    | none => 0
  updateUser db1 tid (fun r => { r with balance := cur + amount })

/-- Source `set_balance(tid, amount)`: ensure the row, then overwrite the
balance column with `amount`. -/
def set_balance (db : DB) (tid : ℤ) (amount : ℚ) : DB :=
  updateUser (ensure_user db tid none none) tid (fun r => { r with balance := amount })

/-- Source `inc_referrals(tid)`: `UPDATE users SET referrals = referrals + 1`
(no `ensure_user` call in the source). -/
def inc_referrals (db : DB) (tid : ℤ) : DB :=
  updateUser db tid (fun r => { r with referrals := r.referrals + 1 })

/-- Source `set_wallet(tid, addr)`. -/
def set_wallet (db : DB) (tid : ℤ) (addr : String) : DB :=
  updateUser (ensure_user db tid none none) tid (fun r => { r with wallet := some addr })

/-- Source `record_last_bonus(tid, dt)`: stores `dt.isoformat()` text. -/
def record_last_bonus (cfg : Config) (db : DB) (tid : ℤ) (t : ℤ) : DB :=
  updateUser (ensure_user db tid none none) tid
    (fun r => { r with last_bonus := some (cfg.isoOf t) })

/-- Source `create_withdrawal(tid, amount, wallet)`: INSERT with status
'pending', returning `lastrowid`. -/
def create_withdrawal (db : DB) (tid : ℤ) (amount : ℚ) (wallet : String) : DB × ℕ :=
  let wid := db.next_wid
  ({ setW db wid { telegram_id := tid, amount := amount, wallet := wallet, status := "pending" }
      with next_wid := wid + 1 }, wid)

/-- Source `get_withdrawal(wid)`. -/
def get_withdrawal (db : DB) (wid : ℕ) : Option WRow :=
  db.withdrawals wid

/-- Source `mark_withdrawal(wid, status)`: unconditional UPDATE of the
status column (no precondition on the current status). -/
def mark_withdrawal (db : DB) (wid : ℕ) (status : String) : DB :=
  match db.withdrawals wid with
  | some w => setW db wid { w with status := status }
  | none => db

/-- Source `user_is_verified(tid)`: both flags set, false for a missing row. -/
def user_is_verified (db : DB) (tid : ℤ) : Bool :=
  match db.users tid with
  | some r => r.joined_channel && r.subscribed_yt
  | none => false

/-- Balance the source reads for a user (`to_decimal(row["balance"]) if row
else Decimal('0')`). -/
def balanceOf (db : DB) (tid : ℤ) : ℚ :=
  match db.users tid with
  | some r => r.balance
  | none => 0

/-- Referral counter of a user, 0 for a missing row. -/
def referralsOf (db : DB) (tid : ℤ) : ℕ :=
  match db.users tid with
  | some r => r.referrals
  | none => 0

/-- Wallet the source reads in `withdraw_action`:
`row["wallet"] if row and row["wallet"] else None` (Python truthiness, so
an empty string also reads as `None`). -/
def walletRead (db : DB) (tid : ℤ) : Option String :=
  match db.users tid with
  | some r =>
    match r.wallet with
    | some s => if s = "" then none else some s
    | none => none
  | none => none

/-- Status column of a withdrawal row, as the admin handlers read it. -/
def statusOf (db : DB) (wid : ℕ) : Option String :=
  (db.withdrawals wid).map (fun w => w.status)

/-- Python `str.strip`: drop leading and trailing whitespace.  Addresses
are modelled as character lists so that every operation is structural. -/
def strTrim (s : List Char) : List Char :=
  ((s.dropWhile Char.isWhitespace).reverse.dropWhile Char.isWhitespace).reverse

/-- Python `str.lower`. -/
def strLower (s : List Char) : List Char :=
  s.map Char.toLower

/-- Python `str.upper`. -/
def strUpper (s : List Char) : List Char :=
  s.map Char.toUpper

/-- Python `str.startswith p`: does the second list start with the first. -/
def strStarts : List Char → List Char → Bool
  | [], _ => true
  | _ :: _, [] => false
  | c :: ps, d :: ss => c = d && strStarts ps ss

/-- Source `is_valid_bsc_address(addr)` in the `ETH_UTILS_AVAILABLE` case.
`to_checksum` models `eth_utils.to_checksum_address`, returning `none`
when the library raises.  The conditional on line 138 of the source reads
`return True if (addr == checksum or addr.lower() == addr or
addr.upper() == addr) else True`, reproduced verbatim in the innermost
if-then-else. -/
def is_valid_bsc_address (to_checksum : List Char → Option (List Char)) (addr : List Char) : Bool :=
  let a := strTrim addr
  if strStarts "0x".data a && a.length = 42 then
    match to_checksum a with
    | some checksum =>
      if a = checksum || strLower a = a || strUpper a = a then true else true
    | none => false
  else
    false

/-- Numeric value rendered by source `format_bnb`:
`d.quantize(Decimal('0.000001'), rounding=ROUND_DOWN)`, i.e. the value at
six decimal places rounded toward zero (`normalize` and the string glue
do not change the value). -/
def format_bnb (d : ℚ) : ℚ :=
  (if 0 ≤ d then ((⌊d * 1000000⌋ : ℤ) : ℚ) else ((⌈d * 1000000⌉ : ℤ) : ℚ)) / 1000000

/-- Timestamp `claim_daily_action` works from: the stored `last_bonus`
text of the user's row, parsed with `datetime.fromisoformat`; `none` when
the row or the column is absent or parsing raises. -/
def lastParsed (cfg : Config) (db : DB) (tid : ℤ) : Option ℤ :=
  match db.users tid with
  | some r =>
    match r.last_bonus with
    | some s => cfg.parseIso s
    | none => none
  | none => none

/-- Outcome of `claim_daily_action` as surfaced to the user. -/
inductive ClaimResult
  | notVerified
  | cooldown (hours minutes : ℤ)
  | granted
deriving Repr, DecidableEq

/-- Outcome of `withdraw_action` as surfaced to the user. -/
inductive WithdrawResult
  | notVerified
  | belowMinimum
  | noPayoutAddress
  | submitted (wid : ℕ)
deriving Repr, DecidableEq

/-- Outcome of `approve_reject_callback` as surfaced to the operator. -/
inductive AdminResult
  | unauthorized
  | notFound
  | alreadyTerminal (status : String)
  | approvedOk
  | awaitingReason
deriving Repr, DecidableEq

/-- Outcome of the admin reject-reason branch of `message_handler`. -/
inductive ReasonResult
  | notHandled
  | notFound
  | processed (userId : ℤ) (reason : String)
deriving Repr, DecidableEq

/-- Source `start_cmd`: upsert the user (with `referred_by`), then credit
the referrer when the parsed ref argument is truthy (non-`None`, nonzero)
and differs from the caller's own id (`if ref_id and ref_id != tid`). -/
def start_cmd (cfg : Config) (tid : ℤ) (username : String) (ref_id : Option ℤ) (db : DB) : DB :=
  let db1 := ensure_user db tid (some username) ref_id
  match ref_id with
  | some r =>
    if r ≠ 0 ∧ r ≠ tid then
      inc_referrals (add_balance (ensure_user db1 r none none) r cfg.REF_BONUS) r
    else db1
  | none => db1

/-- Source `claim_daily_action`: verification gate, then cooldown check
against the parsed `last_bonus` timestamp.  `diff = now - last`; on
`diff < 24h` the handler reports `remaining.seconds // 3600` hours and
`(remaining.seconds % 3600) // 60` minutes where
`remaining = timedelta(hours=24) - diff` — Python's `timedelta.seconds`
is the total remaining seconds modulo 86400 (the day part is dropped).
An unparsable stored timestamp (`datetime.fromisoformat` raising) is
treated exactly like an absent one. -/
def claim_daily_action (cfg : Config) (now : ℤ) (db : DB) (tid : ℤ) : DB × ClaimResult :=
  if user_is_verified db tid then
    let db1 := ensure_user db tid none none
    match lastParsed cfg db1 tid with
    | some t =>
      let diff := now - t
      if diff < 86400 then
        let secs := (86400 - diff) % 86400
        (db1, ClaimResult.cooldown (secs / 3600) (secs % 3600 / 60))
      else
        (record_last_bonus cfg (add_balance db1 tid cfg.DAILY_BONUS) tid now, ClaimResult.granted)
    | none =>
      (record_last_bonus cfg (add_balance db1 tid cfg.DAILY_BONUS) tid now, ClaimResult.granted)
  else
    (db, ClaimResult.notVerified)

/-- Source `withdraw_action`: verification gate, ensure row, read balance
and wallet, then minimum-balance check, then wallet check, then insert a
pending withdrawal snapshotting the live balance and wallet. -/
def withdraw_action (cfg : Config) (db : DB) (tid : ℤ) : DB × WithdrawResult :=
  if user_is_verified db tid then
    let db1 := ensure_user db tid none none
    let bal := balanceOf db1 tid
    let wal := walletRead db1 tid
    if bal < cfg.MIN_WITHDRAW then
      (db1, WithdrawResult.belowMinimum)
    else
      match wal with
      | none => (db1, WithdrawResult.noPayoutAddress)
      | some w =>
        let cw := create_withdrawal db1 tid bal w
        (cw.1, WithdrawResult.submitted cw.2)
  else
    (db, WithdrawResult.notVerified)

/-- Source `approve_reject_callback`: operator gate, lookup, terminal
check (`w["status"] != "pending"`), then either approve (mark approved,
set the user's balance to literal zero) or record the reject intent in
the `pending_rejects` map (modelled as `Option ℕ` for the single
operator). -/
def approve_reject_callback (cfg : Config) (operator : ℤ) (approve : Bool) (wid : ℕ)
    (db : DB) (pr : Option ℕ) : DB × Option ℕ × AdminResult :=
  if operator ≠ cfg.ADMIN_ID then
    (db, pr, AdminResult.unauthorized)
  else
    match get_withdrawal db wid with
    | none => (db, pr, AdminResult.notFound)
    | some w =>
      if w.status ≠ "pending" then
        (db, pr, AdminResult.alreadyTerminal w.status)
      else if approve then
        (set_balance (mark_withdrawal db wid "approved") w.telegram_id 0, pr,
          AdminResult.approvedOk)
      else
        (db, some wid, AdminResult.awaitingReason)

/-- Admin branch of source `message_handler` (lines 475-489): when the
sender is the operator and a reject intent is pending, pop it, look the
withdrawal up, and — with no check of its current status — mark it
rejected and notify the user with the typed reason. -/
def message_reject_branch (cfg : Config) (sender : ℤ) (text : String)
    (db : DB) (pr : Option ℕ) : DB × Option ℕ × ReasonResult :=
  if sender = cfg.ADMIN_ID then
    match pr with
    | some wid =>
      match get_withdrawal db wid with
      | none => (db, none, ReasonResult.notFound)
      | some w => (mark_withdrawal db wid "rejected", none, ReasonResult.processed w.telegram_id text)
    | none => (db, pr, ReasonResult.notHandled)
  else
    (db, pr, ReasonResult.notHandled)

/-- One inbound event of the kinds the ledger claims quantify over. -/
inductive Op
  | start (tid : ℤ) (username : String) (ref : Option ℤ)
  | claimDaily (now : ℤ) (tid : ℤ)
  | withdraw (tid : ℤ)
  | adminClick (operator : ℤ) (approve : Bool) (wid : ℕ)
  | adminReason (sender : ℤ) (text : String)

/-- System state: the database plus the ephemeral `pending_rejects` slot. -/
def Sys := DB × Option ℕ

/-- Initial system state. -/
def initSys : Sys := (initDB, none)

/-- Dispatch of one inbound event to its handler, keeping only the state. -/
def step (cfg : Config) (s : Sys) : Op → Sys
  | Op.start tid username ref => (start_cmd cfg tid username ref s.1, s.2)
  | Op.claimDaily now tid => ((claim_daily_action cfg now s.1 tid).1, s.2)
  | Op.withdraw tid => ((withdraw_action cfg s.1 tid).1, s.2)
  | Op.adminClick operator ap wid =>
    let r := approve_reject_callback cfg operator ap wid s.1 s.2
    (r.1, r.2.1)
  | Op.adminReason sender text =>
    let r := message_reject_branch cfg sender text s.1 s.2
    (r.1, r.2.1)

/-- Run a sequence of inbound events from the freshly initialised system. -/
def runOps (cfg : Config) (ops : List Op) : Sys :=
  ops.foldl (step cfg) initSys

/-- No stored user balance is negative. -/
def NonnegBalances (db : DB) : Prop :=
  ∀ tid r, db.users tid = some r → 0 ≤ r.balance

/-- Property the spec ascribes to a `CooldownActive` report: the carried
hours/minutes pair is the floor breakdown of the true remaining duration
in seconds. -/
def carriesRemaining (res : ClaimResult) (remaining : ℤ) : Prop :=
  ∀ h m, res = ClaimResult.cooldown h m →
    h * 3600 + m * 60 ≤ remaining ∧ remaining < h * 3600 + m * 60 + 60

/-! Basic lemmas about the store helpers. -/

theorem ensure_user_of_some {db : DB} {tid : ℤ} {un : Option String} {rb : Option ℤ}
    {r : UserRow} (h : db.users tid = some r) :
    ensure_user db tid un rb = db := by
  simp only [ensure_user, h]

theorem setUser_users_self {db : DB} {tid : ℤ} {r : UserRow} :
    (setUser db tid r).users tid = some r := by
  simp [setUser]

theorem setUser_users_other {db : DB} {tid t : ℤ} {r : UserRow} (h : t ≠ tid) :
    (setUser db tid r).users t = db.users t := by
  simp [setUser, h]

theorem updateUser_users_self {db : DB} {tid : ℤ} {f : UserRow → UserRow} :
    (updateUser db tid f).users tid = (db.users tid).map f := by
  unfold updateUser
  cases h : db.users tid with
  | none => simp [h]
  | some r => simp [h, setUser]

theorem updateUser_users_other {db : DB} {tid t : ℤ} {f : UserRow → UserRow} (ht : t ≠ tid) :
    (updateUser db tid f).users t = db.users t := by
  unfold updateUser
  cases h : db.users tid with
  | none => rfl
  | some r => simp [setUser, ht]

theorem updateUser_withdrawals {db : DB} {tid : ℤ} {f : UserRow → UserRow} :
    (updateUser db tid f).withdrawals = db.withdrawals := by
  unfold updateUser
  cases h : db.users tid <;> rfl

theorem updateUser_next_wid {db : DB} {tid : ℤ} {f : UserRow → UserRow} :
    (updateUser db tid f).next_wid = db.next_wid := by
  unfold updateUser
  cases h : db.users tid <;> rfl

theorem ensure_users_other {db : DB} {tid t : ℤ} {un : Option String} {rb : Option ℤ}
    (ht : t ≠ tid) :
    (ensure_user db tid un rb).users t = db.users t := by
  unfold ensure_user
  cases h : db.users tid with
  | none => simp [setUser, ht]
  | some r => rfl

theorem ensure_withdrawals {db : DB} {tid : ℤ} {un : Option String} {rb : Option ℤ} :
    (ensure_user db tid un rb).withdrawals = db.withdrawals := by
  unfold ensure_user
  cases h : db.users tid <;> rfl

theorem ensure_next_wid {db : DB} {tid : ℤ} {un : Option String} {rb : Option ℤ} :
    (ensure_user db tid un rb).next_wid = db.next_wid := by
  unfold ensure_user
  cases h : db.users tid <;> rfl

theorem balanceOf_ensure {db : DB} {tid t : ℤ} {un : Option String} {rb : Option ℤ} :
    balanceOf (ensure_user db tid un rb) t = balanceOf db t := by
  unfold ensure_user
  cases h : db.users tid with
  | some r => rfl
  | none =>
    by_cases ht : t = tid
    · subst ht
      simp [balanceOf, setUser, h, defaultUser]
    · simp [balanceOf, setUser, ht]

theorem referralsOf_ensure {db : DB} {tid t : ℤ} {un : Option String} {rb : Option ℤ} :
    referralsOf (ensure_user db tid un rb) t = referralsOf db t := by
  unfold ensure_user
  cases h : db.users tid with
  | some r => rfl
  | none =>
    by_cases ht : t = tid
    · subst ht
      simp [referralsOf, setUser, h, defaultUser]
    · simp [referralsOf, setUser, ht]

theorem users_ensure_isSome {db : DB} {tid : ℤ} {un : Option String} {rb : Option ℤ} :
    ((ensure_user db tid un rb).users tid).isSome = true := by
  unfold ensure_user
  cases h : db.users tid with
  | some r => simp [h]
  | none => simp [setUser]

theorem balanceOf_add_balance_self {db : DB} {tid : ℤ} {a : ℚ} :
    balanceOf (add_balance db tid a) tid = balanceOf db tid + a := by
  unfold add_balance
  cases h : db.users tid with
  | some r =>
    rw [ensure_user_of_some h]
    simp only [get_user_row, h]
    simp [balanceOf, updateUser_users_self, h]
  | none =>
    simp only [ensure_user, h, get_user_row, setUser_users_self, defaultUser]
    simp [balanceOf, updateUser_users_self, setUser_users_self, h]

theorem balanceOf_add_balance_other {db : DB} {tid t : ℤ} {a : ℚ} (ht : t ≠ tid) :
    balanceOf (add_balance db tid a) t = balanceOf db t := by
  unfold add_balance
  simp only [balanceOf, updateUser_users_other ht, ensure_users_other ht]

theorem balanceOf_updateUser {db : DB} {tid t : ℤ} {f : UserRow → UserRow}
    (hf : ∀ r, (f r).balance = r.balance) :
    balanceOf (updateUser db tid f) t = balanceOf db t := by
  by_cases ht : t = tid
  · subst ht
    simp only [balanceOf, updateUser_users_self]
    cases h : db.users t with
    | none => rfl
    | some r => simp [hf]
  · simp only [balanceOf, updateUser_users_other ht]

theorem referralsOf_updateUser {db : DB} {tid t : ℤ} {f : UserRow → UserRow}
    (hf : ∀ r, (f r).referrals = r.referrals) :
    referralsOf (updateUser db tid f) t = referralsOf db t := by
  by_cases ht : t = tid
  · subst ht
    simp only [referralsOf, updateUser_users_self]
    cases h : db.users t with
    | none => rfl
    | some r => simp [hf]
  · simp only [referralsOf, updateUser_users_other ht]

theorem referralsOf_add_balance {db : DB} {tid t : ℤ} {a : ℚ} :
    referralsOf (add_balance db tid a) t = referralsOf db t := by
  unfold add_balance
  refine (referralsOf_updateUser ?_).trans referralsOf_ensure
  intro r
  rfl

theorem users_add_balance_isSome {db : DB} {tid : ℤ} {a : ℚ} :
    ((add_balance db tid a).users tid).isSome = true := by
  unfold add_balance
  simp only [updateUser_users_self]
  cases h : (ensure_user db tid none none).users tid with
  | none =>
    have := @users_ensure_isSome db tid none none
    rw [h] at this
    simp at this
  | some r => simp

theorem balanceOf_inc_referrals {db : DB} {tid t : ℤ} :
    balanceOf (inc_referrals db tid) t = balanceOf db t := by
  unfold inc_referrals
  by_cases ht : t = tid
  · subst ht
    simp only [balanceOf, updateUser_users_self]
    cases h : db.users t <;> simp
  · simp only [balanceOf, updateUser_users_other ht]

theorem referralsOf_inc_referrals_self {db : DB} {tid : ℤ}
    (h : (db.users tid).isSome = true) :
    referralsOf (inc_referrals db tid) tid = referralsOf db tid + 1 := by
  unfold inc_referrals
  cases hr : db.users tid with
  | none => rw [hr] at h; simp at h
  | some r => simp [referralsOf, updateUser_users_self, hr]

theorem balanceOf_set_balance_self {db : DB} {tid : ℤ} {a : ℚ} :
    balanceOf (set_balance db tid a) tid = a := by
  unfold set_balance
  simp only [balanceOf, updateUser_users_self]
  cases h : (ensure_user db tid none none).users tid with
  | none =>
    have := @users_ensure_isSome db tid none none
    rw [h] at this
    simp at this
  | some r => simp

theorem withdrawals_set_balance {db : DB} {tid : ℤ} {a : ℚ} :
    (set_balance db tid a).withdrawals = db.withdrawals := by
  unfold set_balance
  rw [updateUser_withdrawals, ensure_withdrawals]

theorem balanceOf_record_last_bonus {cfg : Config} {db : DB} {tid t : ℤ} {ts : ℤ} :
    balanceOf (record_last_bonus cfg db tid ts) t = balanceOf db t := by
  unfold record_last_bonus
  refine (balanceOf_updateUser ?_).trans balanceOf_ensure
  intro r
  rfl

theorem users_record_last_bonus_self {cfg : Config} {db : DB} {tid : ℤ} {ts : ℤ} :
    ∃ rr, (record_last_bonus cfg db tid ts).users tid = some rr ∧
      rr.last_bonus = some (cfg.isoOf ts) := by
  unfold record_last_bonus
  cases h : (ensure_user db tid none none).users tid with
  | none =>
    have := @users_ensure_isSome db tid none none
    rw [h] at this
    simp at this
  | some r =>
    refine ⟨{ r with last_bonus := some (cfg.isoOf ts) }, ?_, rfl⟩
    simp [updateUser_users_self, h]

theorem statusOf_mark_self {db : DB} {wid : ℕ} {s : String} {w : WRow}
    (h : db.withdrawals wid = some w) :
    statusOf (mark_withdrawal db wid s) wid = some s := by
  simp [statusOf, mark_withdrawal, h, setW]

theorem users_mark_withdrawal {db : DB} {wid : ℕ} {s : String} :
    (mark_withdrawal db wid s).users = db.users := by
  unfold mark_withdrawal
  cases h : db.withdrawals wid <;> rfl

theorem exists_row_of_verified {db : DB} {tid : ℤ} (h : user_is_verified db tid = true) :
    ∃ r, db.users tid = some r ∧ r.joined_channel = true ∧ r.subscribed_yt = true := by
  unfold user_is_verified at h
  cases hr : db.users tid with
  | none => rw [hr] at h; simp at h
  | some r =>
    rw [hr] at h
    refine ⟨r, rfl, ?_⟩
    simpa using h

theorem verified_updateUser {db : DB} {tid t : ℤ} {f : UserRow → UserRow}
    (hj : ∀ r, (f r).joined_channel = r.joined_channel)
    (hs : ∀ r, (f r).subscribed_yt = r.subscribed_yt) :
    user_is_verified (updateUser db tid f) t = user_is_verified db t := by
  by_cases ht : t = tid
  · subst ht
    unfold user_is_verified
    rw [updateUser_users_self]
    cases h : db.users t with
    | none => rfl
    | some r => simp [hj, hs]
  · unfold user_is_verified
    rw [updateUser_users_other ht]

theorem verified_ensure {db : DB} {tid t : ℤ} {un : Option String} {rb : Option ℤ} :
    user_is_verified (ensure_user db tid un rb) t = user_is_verified db t := by
  unfold ensure_user
  cases h : db.users tid with
  | some r => rfl
  | none =>
    by_cases ht : t = tid
    · subst ht
      unfold user_is_verified
      rw [setUser_users_self, h]
      rfl
    · unfold user_is_verified
      rw [setUser_users_other ht]

theorem verified_add_balance {db : DB} {tid t : ℤ} {a : ℚ} :
    user_is_verified (add_balance db tid a) t = user_is_verified db t := by
  unfold add_balance
  refine (verified_updateUser ?_ ?_).trans verified_ensure
  · intro r
    rfl
  · intro r
    rfl

theorem verified_record_last_bonus {cfg : Config} {db : DB} {tid t : ℤ} {ts : ℤ} :
    user_is_verified (record_last_bonus cfg db tid ts) t = user_is_verified db t := by
  unfold record_last_bonus
  refine (verified_updateUser ?_ ?_).trans verified_ensure
  · intro r
    rfl
  · intro r
    rfl

/-! Lemmas feeding the balance non-negativity invariant. -/

theorem nonneg_setUser {db : DB} {tid : ℤ} {r : UserRow}
    (h : NonnegBalances db) (hr : 0 ≤ r.balance) :
    NonnegBalances (setUser db tid r) := by
  intro t u hu
  by_cases ht : t = tid
  · subst ht
    rw [setUser_users_self] at hu
    cases hu
    exact hr
  · rw [setUser_users_other ht] at hu
    exact h t u hu

theorem nonneg_ensure {db : DB} {tid : ℤ} {un : Option String} {rb : Option ℤ}
    (h : NonnegBalances db) :
    NonnegBalances (ensure_user db tid un rb) := by
  unfold ensure_user
  cases hr : db.users tid with
  | some r => exact h
  | none => exact nonneg_setUser h le_rfl

theorem nonneg_updateUser {db : DB} {tid : ℤ} {f : UserRow → UserRow}
    (h : NonnegBalances db)
    (hf : ∀ r, db.users tid = some r → 0 ≤ (f r).balance) :
    NonnegBalances (updateUser db tid f) := by
  intro t u hu
  unfold updateUser at hu
  cases hr : db.users tid with
  | none => rw [hr] at hu; exact h t u hu
  | some r =>
    rw [hr] at hu
    by_cases ht : t = tid
    · subst ht
      rw [setUser_users_self] at hu
      cases hu
      exact hf r hr
    · rw [setUser_users_other ht] at hu
      exact h t u hu

theorem nonneg_add_balance {db : DB} {tid : ℤ} {a : ℚ}
    (h : NonnegBalances db) (ha : 0 ≤ a) :
    NonnegBalances (add_balance db tid a) := by
  unfold add_balance
  refine nonneg_updateUser (nonneg_ensure h) ?_
  intro r hr
  have hcur : 0 ≤ (match get_user_row (ensure_user db tid none none) tid with
      | some rr => rr.balance
      | none => (0 : ℚ)) := by
    unfold get_user_row
    rw [hr]
    exact nonneg_ensure h tid r hr
  exact add_nonneg hcur ha

theorem nonneg_set_balance {db : DB} {tid : ℤ} {a : ℚ}
    (h : NonnegBalances db) (ha : 0 ≤ a) :
    NonnegBalances (set_balance db tid a) := by
  unfold set_balance
  exact nonneg_updateUser (nonneg_ensure h) (fun r _ => ha)

theorem nonneg_preserving_update {db : DB} {tid : ℤ} {f : UserRow → UserRow}
    (h : NonnegBalances db) (hf : ∀ r, (f r).balance = r.balance) :
    NonnegBalances (updateUser db tid f) := by
  refine nonneg_updateUser h ?_
  intro r hr
  rw [hf]
  exact h tid r hr

theorem nonneg_of_users_eq {db db2 : DB}
    (h : NonnegBalances db) (he : db2.users = db.users) :
    NonnegBalances db2 := by
  intro t u hu
  rw [he] at hu
  exact h t u hu

theorem nonneg_start_cmd {cfg : Config} {db : DB} {tid : ℤ} {uname : String} {ref : Option ℤ}
    (h : NonnegBalances db) (href : 0 ≤ cfg.REF_BONUS) :
    NonnegBalances (start_cmd cfg tid uname ref db) := by
  unfold start_cmd
  cases ref with
  | none => exact nonneg_ensure h
  | some r =>
    dsimp only
    by_cases hc : r ≠ 0 ∧ r ≠ tid
    · rw [if_pos hc]
      unfold inc_referrals
      refine nonneg_preserving_update ?_ (fun rr => rfl)
      exact nonneg_add_balance (nonneg_ensure (nonneg_ensure h)) href
    · rw [if_neg hc]
      exact nonneg_ensure h

theorem nonneg_claim_daily {cfg : Config} {now : ℤ} {db : DB} {tid : ℤ}
    (h : NonnegBalances db) (hd : 0 ≤ cfg.DAILY_BONUS) :
    NonnegBalances (claim_daily_action cfg now db tid).1 := by
  unfold claim_daily_action
  by_cases hv : user_is_verified db tid = true
  · simp only [hv]
    cases hl : lastParsed cfg (ensure_user db tid none none) tid with
    | none =>
      simp only [hl, if_true]
      unfold record_last_bonus
      exact nonneg_preserving_update
        (nonneg_ensure (nonneg_add_balance (nonneg_ensure h) hd)) (fun r => rfl)
    | some t =>
      simp only [hl, if_true]
      by_cases hdiff : now - t < 86400
      · rw [if_pos hdiff]
        exact nonneg_ensure h
      · rw [if_neg hdiff]
        unfold record_last_bonus
        exact nonneg_preserving_update
          (nonneg_ensure (nonneg_add_balance (nonneg_ensure h) hd)) (fun r => rfl)
  · simp only [Bool.not_eq_true] at hv
    simp only [hv, Bool.false_eq_true, if_false]
    exact h

theorem nonneg_withdraw {cfg : Config} {db : DB} {tid : ℤ}
    (h : NonnegBalances db) :
    NonnegBalances (withdraw_action cfg db tid).1 := by
  unfold withdraw_action
  dsimp only
  split
  · split
    · exact nonneg_ensure h
    · split
      · exact nonneg_ensure h
      · exact nonneg_of_users_eq (nonneg_ensure h) rfl
  · exact h

theorem nonneg_approve_reject {cfg : Config} {operator : ℤ} {ap : Bool} {wid : ℕ}
    {db : DB} {pr : Option ℕ} (h : NonnegBalances db) :
    NonnegBalances (approve_reject_callback cfg operator ap wid db pr).1 := by
  unfold approve_reject_callback
  split
  · exact h
  · split
    · exact h
    · split
      · exact h
      · split
        · exact nonneg_set_balance (nonneg_of_users_eq h users_mark_withdrawal) le_rfl
        · exact h

theorem nonneg_message_reject {cfg : Config} {sender : ℤ} {text : String}
    {db : DB} {pr : Option ℕ} (h : NonnegBalances db) :
    NonnegBalances (message_reject_branch cfg sender text db pr).1 := by
  unfold message_reject_branch
  split
  · split
    · split
      · exact h
      · exact nonneg_of_users_eq h users_mark_withdrawal
    · exact h
  · exact h

theorem nonneg_step {cfg : Config} {s : Sys} (h : NonnegBalances s.1)
    (h1 : 0 ≤ cfg.REF_BONUS) (h2 : 0 ≤ cfg.DAILY_BONUS) (op : Op) :
    NonnegBalances (step cfg s op).1 := by
  cases op with
  | start tid uname ref => exact nonneg_start_cmd h h1
  | claimDaily now tid => exact nonneg_claim_daily h h2
  | withdraw tid => exact nonneg_withdraw h
  | adminClick operator ap wid => exact nonneg_approve_reject h
  | adminReason sender text => exact nonneg_message_reject h

/-- C8: for every user and every sequence of operations (referral credits,
daily-bonus grants, withdrawal requests, approvals, rejections), assuming
the configured referral and daily-bonus amounts are non-negative, the
user's balance is never negative after any operation (every prefix of a
sequence is itself a sequence, so this covers each intermediate state). -/
theorem C8_nonneg (cfg : Config) (h1 : 0 ≤ cfg.REF_BONUS) (h2 : 0 ≤ cfg.DAILY_BONUS)
    (ops : List Op) : NonnegBalances (runOps cfg ops).1 := by
  have hinit : NonnegBalances initSys.1 := by
    intro t u hu
    simp [initSys, initDB] at hu
  unfold runOps
  suffices hgen : ∀ (l : List Op) (s : Sys),
      NonnegBalances s.1 → NonnegBalances (l.foldl (step cfg) s).1 from
    hgen ops initSys hinit
  intro l
  induction l with
  | nil => exact fun s hs => hs
  | cons a l ih => exact fun s hs => ih _ (nonneg_step hs h1 h2 a)

/-! Concrete fixtures used by witnesses and counterexamples. -/

/-- Configuration with the documented default amounts (referral bonus
0.01, daily bonus 0.001, minimum withdrawal 0.5), operator id 99 and a
trivial timestamp codec. -/
def cfg0 : Config :=
  { ADMIN_ID := 99, REF_BONUS := 1/100, DAILY_BONUS := 1/1000, MIN_WITHDRAW := 1/2,
    isoOf := fun _ => "iso", parseIso := fun _ => none }

/-- Fully verified user row fixture. -/
def userV (bal : ℚ) (wal : Option String) (lb : Option String) : UserRow :=
  { username := some "u", balance := bal, referrals := 0, referred_by := none,
    wallet := wal, last_bonus := lb, joined_channel := true, subscribed_yt := true }

/-- Verified user 1 holding exactly the minimum balance with a wallet set. -/
def dbHalf : DB :=
  setUser initDB 1 (userV (1/2) (some "0xw") none)

/-- C9: for every decimal amount, the display formatter renders it at 6
decimal places by truncating toward zero: the rendered value is an
integer multiple of 10⁻⁶, for non-negative amounts it never exceeds the
stored value (and sits within 10⁻⁶ of it), and its magnitude never
exceeds the stored magnitude — it never rounds up. -/
theorem C9_format_truncates (d : ℚ) :
    (∃ n : ℤ, format_bnb d = (n : ℚ) / 1000000) ∧
    (0 ≤ d → format_bnb d ≤ d ∧ d - format_bnb d < 1 / 1000000) ∧
    |format_bnb d| ≤ |d| := by
  unfold format_bnb
  rcases le_or_lt 0 d with hd | hd
  · rw [if_pos hd]
    have h1 : ((⌊d * 1000000⌋ : ℤ) : ℚ) ≤ d * 1000000 := Int.floor_le _
    have h2 : d * 1000000 < ((⌊d * 1000000⌋ : ℤ) : ℚ) + 1 := Int.lt_floor_add_one _
    have h0 : (0 : ℚ) ≤ ((⌊d * 1000000⌋ : ℤ) : ℚ) := by
      have hz : (0 : ℤ) ≤ ⌊d * 1000000⌋ := Int.floor_nonneg.mpr (by positivity)
      exact_mod_cast hz
    refine ⟨⟨⌊d * 1000000⌋, rfl⟩, fun _ => ⟨by linarith, by linarith⟩, ?_⟩
    rw [abs_of_nonneg (by linarith : (0:ℚ) ≤ ((⌊d * 1000000⌋ : ℤ) : ℚ) / 1000000),
      abs_of_nonneg hd]
    linarith
  · rw [if_neg (not_le.mpr hd)]
    have h1 : d * 1000000 ≤ ((⌈d * 1000000⌉ : ℤ) : ℚ) := Int.le_ceil _
    have h0 : ((⌈d * 1000000⌉ : ℤ) : ℚ) ≤ 0 := by
      have hz : ⌈d * 1000000⌉ ≤ (0 : ℤ) := Int.ceil_le.mpr (by push_cast; nlinarith)
      exact_mod_cast hz
    refine ⟨⟨⌈d * 1000000⌉, rfl⟩, fun hge => absurd hge (not_le.mpr hd), ?_⟩
    rw [abs_of_nonpos (by linarith : ((⌈d * 1000000⌉ : ℤ) : ℚ) / 1000000 ≤ 0),
      abs_of_nonpos hd.le]
    linarith

/-- Witness for C9 at the concrete amount 1/3: the rendered value is a
multiple of 10⁻⁶, does not exceed 1/3, sits within 10⁻⁶ of it, and has
magnitude at most |1/3|. -/
theorem C9_format_truncates_witness :
    (∃ n : ℤ, format_bnb (1/3) = (n : ℚ) / 1000000) ∧
    (format_bnb (1/3) ≤ 1/3 ∧ (1:ℚ)/3 - format_bnb (1/3) < 1 / 1000000) ∧
    |format_bnb (1/3)| ≤ |(1:ℚ)/3| := by
  have h := C9_format_truncates (1/3)
  exact ⟨h.1, h.2.1 (by norm_num), h.2.2⟩

/-- Canonical mixed-case checksum form of a fixture address (the value
the external checksum library would return for this account). -/
def addrCanon : List Char :=
  "0xAbCdEf1234567890aBcDeF1234567890AbCdEf12".data

/-- The same address with the case of its first letter flipped: a
mixed-case input whose checksum does not match. -/
def addrFlip : List Char :=
  "0xabCdEf1234567890aBcDeF1234567890AbCdEf12".data

/-- Model of `eth_utils.to_checksum_address` on the fixture account: both
casings are valid hex for the same account, whose canonical checksum
form is `addrCanon`. -/
def csFun : List Char → Option (List Char) :=
  fun a => if a = addrFlip ∨ a = addrCanon then some addrCanon else none

/-- C2: evaluation of the source validator at the failing input.  With a
checksum library available, `addrFlip` is a trimmed, 0x-prefixed,
42-character input that differs from its canonical checksum form and is
neither all-lowercase nor all-uppercase, so the claim requires it to be
rejected — yet the source accepts it (the conditional on line 138 of the
source returns True in both branches). -/
theorem C2_checksum_bug :
    is_valid_bsc_address csFun addrFlip = true ∧
    csFun addrFlip = some addrCanon ∧
    addrFlip ≠ addrCanon ∧
    strLower addrFlip ≠ addrFlip ∧
    strUpper addrFlip ≠ addrFlip ∧
    is_valid_bsc_address csFun addrCanon = true := by
  refine ⟨by decide, by decide, by decide, by decide, by decide, by decide⟩

/-- Database fixture for C1: user 5 is verified with balance 0.5 and a
wallet; withdrawal 1 is pending for user 5. -/
def dbC1 : DB :=
  { users := fun t => if t = 5 then some (userV (1/2) (some "0xw") none) else none,
    withdrawals := fun i =>
      if i = 1 then some { telegram_id := 5, amount := 1/2, wallet := "0xw", status := "pending" }
      else none,
    next_wid := 2 }

/-- State after the operator clicks Reject on pending withdrawal 1. -/
def c1Step1 : DB × Option ℕ × AdminResult :=
  approve_reject_callback cfg0 99 false 1 dbC1 none

/-- State after the operator then clicks Approve on the same id. -/
def c1Step2 : DB × Option ℕ × AdminResult :=
  approve_reject_callback cfg0 99 true 1 c1Step1.1 c1Step1.2.1

/-- State after the operator finally sends the rejection reason text. -/
def c1Step3 : DB × Option ℕ × ReasonResult :=
  message_reject_branch cfg0 99 "reason text" c1Step2.1 c1Step2.2.1

/-- C1: evaluation of the source at the failing input.  The operator
clicks Reject on pending withdrawal 1 (recording the reject intent),
then clicks Approve on the same id (a first terminal transition to
approved), then sends the reason text: the deferred reject path of
`message_handler` checks only that the row exists, so it performs a
second terminal transition, silently overwriting approved with rejected
and reporting success — the claim requires an `AlreadyTerminal` conflict
with the stored status unchanged. -/
theorem C1_deferred_reject_overwrites_approved :
    c1Step1.2.2 = AdminResult.awaitingReason ∧ c1Step1.2.1 = some 1 ∧
    c1Step2.2.2 = AdminResult.approvedOk ∧ statusOf c1Step2.1 1 = some "approved" ∧
    c1Step3.2.2 = ReasonResult.processed 5 "reason text" ∧
    statusOf c1Step3.1 1 = some "rejected" := by
  refine ⟨by decide, by decide, by decide, by decide, by decide, by decide⟩

/-- Referrer 1 credited twice by two `/start ref1` interactions of the
same user 2 (who is onboarded only once, by the first of them). -/
def dbC3 : DB :=
  start_cmd cfg0 2 "bob" (some 1) (start_cmd cfg0 2 "bob" (some 1) initDB)

/-- C3 counterexample: after user 2 sends `/start` with referrer 1 twice,
the referrer's balance is twice the referral bonus and the referral count
is 2, although user 2 was newly onboarded only once — refuting at a
concrete input that the credit is applied at most once per newly
onboarded user and only at that user's first interaction. -/
theorem C3_counterexample :
    balanceOf dbC3 1 = 2 * cfg0.REF_BONUS ∧
    referralsOf dbC3 1 = 2 ∧
    (dbC3.users 2).isSome = true := by
  refine ⟨?_, by decide, by decide⟩
  norm_num [dbC3, start_cmd, ensure_user, add_balance, inc_referrals, updateUser, setUser,
    get_user_row, balanceOf, initDB, defaultUser, cfg0, userV]

theorem statusOf_set_balance {db : DB} {tid : ℤ} {a : ℚ} {wid : ℕ} :
    statusOf (set_balance db tid a) wid = statusOf db wid := by
  unfold statusOf
  rw [withdrawals_set_balance]

/-- C5: approving a pending withdrawal request as the operator reports
success, sets the stored status to approved, and sets the requesting
user's live balance to literal zero — unconditionally, with no reference
to the snapshot amount, so it is a reset and not a debit. -/
theorem C5_approve_zeroes_balance (cfg : Config) (db : DB) (pr : Option ℕ) (wid : ℕ) (w : WRow)
    (hw : get_withdrawal db wid = some w) (hp : w.status = "pending") :
    (approve_reject_callback cfg cfg.ADMIN_ID true wid db pr).2.2 = AdminResult.approvedOk ∧
    statusOf (approve_reject_callback cfg cfg.ADMIN_ID true wid db pr).1 wid = some "approved" ∧
    balanceOf (approve_reject_callback cfg cfg.ADMIN_ID true wid db pr).1 w.telegram_id = 0 := by
  have hred : approve_reject_callback cfg cfg.ADMIN_ID true wid db pr =
      (set_balance (mark_withdrawal db wid "approved") w.telegram_id 0, pr,
        AdminResult.approvedOk) := by
    unfold approve_reject_callback
    rw [if_neg (by simp)]
    simp only [hw]
    rw [if_neg (by simp [hp])]
    rfl
  rw [hred]
  refine ⟨rfl, ?_, balanceOf_set_balance_self⟩
  rw [statusOf_set_balance]
  exact statusOf_mark_self hw

/-- Witness for C5: the spec scenario at concrete values — user 1 has
balance 0.5 (the minimum) and a wallet; the request creates pending
withdrawal 1 with amount 0.5, and operator approval marks it approved
and leaves the user's balance exactly 0. -/
theorem C5_approve_zeroes_balance_witness :
    (withdraw_action cfg0 dbHalf 1).2 = WithdrawResult.submitted 1 ∧
    get_withdrawal (withdraw_action cfg0 dbHalf 1).1 1 =
      some { telegram_id := 1, amount := 1/2, wallet := "0xw", status := "pending" } ∧
    statusOf (approve_reject_callback cfg0 99 true 1 (withdraw_action cfg0 dbHalf 1).1 none).1 1 =
      some "approved" ∧
    balanceOf (approve_reject_callback cfg0 99 true 1 (withdraw_action cfg0 dbHalf 1).1 none).1 1 = 0 := by
  have hne : ¬ ("0xw" : String) = "" := by decide
  have hw : get_withdrawal (withdraw_action cfg0 dbHalf 1).1 1 =
      some { telegram_id := 1, amount := 1/2, wallet := "0xw", status := "pending" } := by
    norm_num [withdraw_action, get_withdrawal, create_withdrawal, setW, dbHalf, setUser,
      ensure_user, user_is_verified, balanceOf, walletRead, userV, initDB, cfg0, hne]
  have h := C5_approve_zeroes_balance cfg0 (withdraw_action cfg0 dbHalf 1).1 none 1
    { telegram_id := 1, amount := 1/2, wallet := "0xw", status := "pending" } hw rfl
  refine ⟨?_, hw, h.2.1, h.2.2⟩
  norm_num [withdraw_action, create_withdrawal, dbHalf, setUser,
    ensure_user, user_is_verified, balanceOf, walletRead, userV, initDB, cfg0, hne]

/-- C6: for a verified user, the request fails with `BelowMinimum`
whenever the live balance is below the configured minimum, and — the
balance check passing — fails with `NoPayoutAddress` when no wallet is
set; in every failing case (including the verification gate) the
database, and with it the withdrawals store, is returned unchanged. -/
theorem C6_withdraw_errors (cfg : Config) (db : DB) (tid : ℤ) :
    (user_is_verified db tid = true →
      (balanceOf db tid < cfg.MIN_WITHDRAW →
        withdraw_action cfg db tid = (db, WithdrawResult.belowMinimum)) ∧
      (cfg.MIN_WITHDRAW ≤ balanceOf db tid → walletRead db tid = none →
        withdraw_action cfg db tid = (db, WithdrawResult.noPayoutAddress))) ∧
    ((∀ wid, (withdraw_action cfg db tid).2 ≠ WithdrawResult.submitted wid) →
      (withdraw_action cfg db tid).1 = db) := by
  by_cases hv : user_is_verified db tid = true
  · obtain ⟨r, hr, _, _⟩ := exists_row_of_verified hv
    have hens : ensure_user db tid none none = db := ensure_user_of_some hr
    constructor
    · intro _
      constructor
      · intro hb
        unfold withdraw_action
        simp only [hv, if_true, hens]
        rw [if_pos hb]
      · intro hb hwal
        unfold withdraw_action
        simp only [hv, if_true, hens]
        rw [if_neg (not_lt.mpr hb), hwal]
    · intro hno
      unfold withdraw_action at hno ⊢
      simp only [hv, if_true, hens] at hno ⊢
      by_cases hb : balanceOf db tid < cfg.MIN_WITHDRAW
      · rw [if_pos hb]
      · rw [if_neg hb] at hno ⊢
        cases hwal : walletRead db tid with
        | none => rfl
        | some w =>
          exfalso
          rw [hwal] at hno
          exact hno db.next_wid rfl
  · have hvf : user_is_verified db tid = false := by
      cases h : user_is_verified db tid
      · rfl
      · exact absurd h hv
    constructor
    · intro h
      exact absurd h hv
    · intro _
      unfold withdraw_action
      simp only [hvf, Bool.false_eq_true, if_false]

/-- Witness for C6: verified user 1 with balance 0.25 (below the 0.5
minimum) and no wallet; the request is refused as `BelowMinimum` and the
database is returned unchanged. -/
def dbW6 : DB :=
  setUser initDB 1 (userV (1/4) none none)

theorem C6_withdraw_errors_witness :
    user_is_verified dbW6 1 = true ∧
    balanceOf dbW6 1 < cfg0.MIN_WITHDRAW ∧
    withdraw_action cfg0 dbW6 1 = (dbW6, WithdrawResult.belowMinimum) := by
  have hb : balanceOf dbW6 1 < cfg0.MIN_WITHDRAW := by
    norm_num [balanceOf, dbW6, setUser, initDB, userV, cfg0]
  exact ⟨by decide, hb, ((C6_withdraw_errors cfg0 dbW6 1).1 (by decide)).1 hb⟩

/-- C7: a successful request leaves the user table untouched (no debit,
freeze, or any other field change), appends exactly one pending
withdrawal row snapshotting the live balance and wallet under the next
AUTOINCREMENT id, and bumps that id. -/
theorem C7_request_frame (cfg : Config) (db : DB) (tid : ℤ) (w : String)
    (hv : user_is_verified db tid = true)
    (hb : cfg.MIN_WITHDRAW ≤ balanceOf db tid)
    (hw : walletRead db tid = some w) :
    withdraw_action cfg db tid =
      ({ users := db.users,
         withdrawals := fun i =>
           if i = db.next_wid then
             some { telegram_id := tid, amount := balanceOf db tid,
                    wallet := w, status := "pending" }
           else db.withdrawals i,
         next_wid := db.next_wid + 1 }, WithdrawResult.submitted db.next_wid) := by
  obtain ⟨r, hr, _, _⟩ := exists_row_of_verified hv
  have hens : ensure_user db tid none none = db := ensure_user_of_some hr
  unfold withdraw_action
  simp only [hv, if_true, hens]
  rw [if_neg (not_lt.mpr hb), hw]
  rfl

/-- Witness for C7: at the concrete minimum-balance fixture the request
returns `submitted 1`, copies balance 0.5 and wallet into pending row 1,
and leaves the user table of the fixture unchanged. -/
theorem C7_request_frame_witness :
    user_is_verified dbHalf 1 = true ∧
    cfg0.MIN_WITHDRAW ≤ balanceOf dbHalf 1 ∧
    walletRead dbHalf 1 = some "0xw" ∧
    withdraw_action cfg0 dbHalf 1 =
      ({ users := dbHalf.users,
         withdrawals := fun i =>
           if i = dbHalf.next_wid then
             some { telegram_id := 1, amount := balanceOf dbHalf 1,
                    wallet := "0xw", status := "pending" }
           else dbHalf.withdrawals i,
         next_wid := dbHalf.next_wid + 1 }, WithdrawResult.submitted dbHalf.next_wid) := by
  have hb : cfg0.MIN_WITHDRAW ≤ balanceOf dbHalf 1 := by
    norm_num [balanceOf, dbHalf, setUser, initDB, userV, cfg0]
  exact ⟨by decide, hb, by decide, C7_request_frame cfg0 dbHalf 1 "0xw" (by decide) hb (by decide)⟩

/-- C3 (amended): the referral credit (referral bonus to the balance and
referral-count increment of the referrer) is applied on every `/start`
interaction whose parsed referrer id is nonzero and differs from the
sender's own id — including repeat interactions of an already-onboarded
user, not only the first — and is never applied on self-referral (or a
zero id, which Python truthiness treats like an absent one). -/
theorem C3_amended_referral (cfg : Config) (db : DB) (tid : ℤ) (uname : String) (r : ℤ) :
    (r = tid ∨ r = 0 →
      start_cmd cfg tid uname (some r) db = ensure_user db tid (some uname) (some r)) ∧
    (r ≠ tid → r ≠ 0 →
      balanceOf (start_cmd cfg tid uname (some r) db) r = balanceOf db r + cfg.REF_BONUS ∧
      referralsOf (start_cmd cfg tid uname (some r) db) r = referralsOf db r + 1) := by
  constructor
  · intro hor
    unfold start_cmd
    dsimp only
    rw [if_neg]
    rcases hor with h | h
    · exact fun hc => hc.2 h
    · exact fun hc => hc.1 h
  · intro hrt hr0
    unfold start_cmd
    dsimp only
    rw [if_pos ⟨hr0, hrt⟩]
    constructor
    · rw [balanceOf_inc_referrals, balanceOf_add_balance_self, balanceOf_ensure,
        balanceOf_ensure]
    · have hs : ((add_balance (ensure_user (ensure_user db tid (some uname) (some r)) r
          none none) r cfg.REF_BONUS).users r).isSome = true := users_add_balance_isSome
      rw [referralsOf_inc_referrals_self hs, referralsOf_add_balance, referralsOf_ensure,
        referralsOf_ensure]

/-- Witness for C3 (amended): a fresh user 2 starting with referrer 1
credits user 1 with the referral bonus and one referral. -/
theorem C3_amended_referral_witness :
    (1 : ℤ) ≠ 2 ∧ (1 : ℤ) ≠ 0 ∧
    balanceOf (start_cmd cfg0 2 "bob" (some 1) initDB) 1 = balanceOf initDB 1 + cfg0.REF_BONUS ∧
    referralsOf (start_cmd cfg0 2 "bob" (some 1) initDB) 1 = referralsOf initDB 1 + 1 := by
  have h := (C3_amended_referral cfg0 initDB 2 "bob" 1).2 (by decide) (by decide)
  exact ⟨by decide, by decide, h.1, h.2⟩

/-- C10: when the stored `last_bonus` text of a verified user fails to
parse (the `datetime.fromisoformat` call raises), the claim handler
treats it exactly like an absent timestamp: the bonus is granted
immediately and the daily amount is credited, bypassing the 24-hour
cooldown entirely. -/
theorem C10_unparsable_grants (cfg : Config) (now : ℤ) (db : DB) (tid : ℤ) (r : UserRow)
    (s : String)
    (hv : user_is_verified db tid = true)
    (hr : db.users tid = some r)
    (hl : r.last_bonus = some s)
    (hp : cfg.parseIso s = none) :
    (claim_daily_action cfg now db tid).2 = ClaimResult.granted ∧
    balanceOf (claim_daily_action cfg now db tid).1 tid = balanceOf db tid + cfg.DAILY_BONUS := by
  have hens : ensure_user db tid none none = db := ensure_user_of_some hr
  have hlp : lastParsed cfg (ensure_user db tid none none) tid = none := by
    rw [hens]
    simp only [lastParsed, hr, hl, hp]
  refine ⟨?_, ?_⟩
  · unfold claim_daily_action
    simp only [hv, if_true, hlp]
  · unfold claim_daily_action
    simp only [hv, if_true, hlp]
    rw [balanceOf_record_last_bonus, balanceOf_add_balance_self, hens]

/-- Witness for C10: verified user 1 stores the unparsable text
`garbage`; the claim succeeds and credits the daily bonus. -/
def dbW10 : DB :=
  setUser initDB 1 (userV 0 none (some "garbage"))

theorem C10_unparsable_grants_witness :
    user_is_verified dbW10 1 = true ∧
    cfg0.parseIso "garbage" = none ∧
    (claim_daily_action cfg0 5 dbW10 1).2 = ClaimResult.granted ∧
    balanceOf (claim_daily_action cfg0 5 dbW10 1).1 1 = balanceOf dbW10 1 + cfg0.DAILY_BONUS := by
  have h := C10_unparsable_grants cfg0 5 dbW10 1 (userV 0 none (some "garbage")) "garbage"
    (by decide) (by decide) (by decide) rfl
  exact ⟨by decide, rfl, h.1, h.2⟩

/-- C4 (amended): for a verified user, a claim with no parsed
`lastBonusAt` succeeds at once, credits the fixed daily amount and
stores the current time; a claim with `0 < elapsed < 24h` fails with a
cooldown report that carries the floor hours/minutes breakdown of the
true remaining duration and leaves the database unchanged; at
`elapsed = 0` the code instead reports `0h 0m` (Python's
`timedelta.seconds` drops the whole-day component of the remaining 24h);
a claim at `elapsed ≥ 24h` succeeds; and after any successful claim a
second claim within 24 hours always fails with a cooldown report. -/
theorem C4_amended_daily (cfg : Config) (db : DB) (tid now : ℤ)
    (hv : user_is_verified db tid = true) :
    (lastParsed cfg db tid = none →
      (claim_daily_action cfg now db tid).2 = ClaimResult.granted ∧
      balanceOf (claim_daily_action cfg now db tid).1 tid = balanceOf db tid + cfg.DAILY_BONUS ∧
      (∃ rr, (claim_daily_action cfg now db tid).1.users tid = some rr ∧
        rr.last_bonus = some (cfg.isoOf now))) ∧
    (∀ t, lastParsed cfg db tid = some t → 0 < now - t → now - t < 86400 →
      (claim_daily_action cfg now db tid).1 = db ∧
      ∃ h m, (claim_daily_action cfg now db tid).2 = ClaimResult.cooldown h m ∧
        carriesRemaining (ClaimResult.cooldown h m) (86400 - (now - t))) ∧
    (∀ t, lastParsed cfg db tid = some t → now = t →
      claim_daily_action cfg now db tid = (db, ClaimResult.cooldown 0 0)) ∧
    (∀ t, lastParsed cfg db tid = some t → 86400 ≤ now - t →
      (claim_daily_action cfg now db tid).2 = ClaimResult.granted) ∧
    (cfg.parseIso (cfg.isoOf now) = some now →
      (claim_daily_action cfg now db tid).2 = ClaimResult.granted →
      ∀ t2, now ≤ t2 → t2 < now + 86400 →
        ∃ h m, (claim_daily_action cfg t2 (claim_daily_action cfg now db tid).1 tid).2 =
          ClaimResult.cooldown h m) := by
  obtain ⟨r, hr, _, _⟩ := exists_row_of_verified hv
  have hens : ensure_user db tid none none = db := ensure_user_of_some hr
  refine ⟨?_, ?_, ?_, ?_, ?_⟩
  · intro h0
    refine ⟨?_, ?_, ?_⟩
    · unfold claim_daily_action
      simp only [hv, if_true, hens, h0]
    · unfold claim_daily_action
      simp only [hv, if_true, hens, h0]
      rw [balanceOf_record_last_bonus, balanceOf_add_balance_self]
    · unfold claim_daily_action
      simp only [hv, if_true, hens, h0]
      exact users_record_last_bonus_self
  · intro t ht h1 h2
    refine ⟨?_, ?_⟩
    · unfold claim_daily_action
      simp only [hv, if_true, hens, ht]
      rw [if_pos h2]
    · unfold claim_daily_action
      simp only [hv, if_true, hens, ht]
      rw [if_pos h2]
      refine ⟨(86400 - (now - t)) % 86400 / 3600, (86400 - (now - t)) % 86400 % 3600 / 60,
        rfl, ?_⟩
      intro h' m' heq
      injection heq with hh hm
      subst hh
      subst hm
      omega
  · intro t ht heq
    subst heq
    unfold claim_daily_action
    simp only [hv, if_true, hens, ht]
    rw [if_pos (by omega : now - now < 86400)]
    have hz : (86400 - (now - now)) % 86400 = 0 := by omega
    rw [hz]
    norm_num
  · intro t ht hge
    unfold claim_daily_action
    simp only [hv, if_true, hens, ht]
    rw [if_neg (by omega : ¬ now - t < 86400)]
  · intro hparse hgrant t2 hle hlt
    have hstate : (claim_daily_action cfg now db tid).1 =
        record_last_bonus cfg (add_balance db tid cfg.DAILY_BONUS) tid now := by
      unfold claim_daily_action at hgrant ⊢
      simp only [hv, if_true, hens] at hgrant ⊢
      cases hl : lastParsed cfg db tid with
      | none => simp only [hl]
      | some t =>
        simp only [hl] at hgrant ⊢
        by_cases hd : now - t < 86400
        · rw [if_pos hd] at hgrant
          exact absurd hgrant (by simp)
        · rw [if_neg hd]
    have hvG : user_is_verified
        (record_last_bonus cfg (add_balance db tid cfg.DAILY_BONUS) tid now) tid = true := by
      rw [verified_record_last_bonus, verified_add_balance]
      exact hv
    have hlpG : lastParsed cfg
        (record_last_bonus cfg (add_balance db tid cfg.DAILY_BONUS) tid now) tid = some now := by
      obtain ⟨rr, hrr, hlb⟩ :=
        @users_record_last_bonus_self cfg (add_balance db tid cfg.DAILY_BONUS) tid now
      simp only [lastParsed, hrr, hlb, hparse]
    obtain ⟨rG, hrG, _, _⟩ := exists_row_of_verified hvG
    have hensG : ensure_user
        (record_last_bonus cfg (add_balance db tid cfg.DAILY_BONUS) tid now) tid none none =
        record_last_bonus cfg (add_balance db tid cfg.DAILY_BONUS) tid now :=
      ensure_user_of_some hrG
    rw [hstate]
    unfold claim_daily_action
    simp only [hvG, if_true, hensG, hlpG]
    rw [if_pos (by omega : t2 - now < 86400)]
    exact ⟨_, _, rfl⟩

/-- Configuration for the C4 counterexample: the stored text parses back
to timestamp 0. -/
def cfgC4 : Config :=
  { ADMIN_ID := 99, REF_BONUS := 1/100, DAILY_BONUS := 1/1000, MIN_WITHDRAW := 1/2,
    isoOf := fun _ => "ts", parseIso := fun _ => some 0 }

/-- Verified user 1 whose last bonus timestamp parses to 0. -/
def dbC4 : DB :=
  setUser initDB 1 (userV 0 none (some "ts"))

/-- C4 counterexample: claiming again at elapsed time exactly 0 (current
time equal to the stored `lastBonusAt`) fails as required, but the
cooldown report carries `0h 0m` although the remaining duration is the
full 24 hours (86400 s) — `timedelta.seconds` dropped the day part — so
the report does not carry the remaining duration in hours and minutes. -/
theorem C4_counterexample :
    lastParsed cfgC4 dbC4 1 = some 0 ∧
    (claim_daily_action cfgC4 0 dbC4 1).2 = ClaimResult.cooldown 0 0 ∧
    ¬ carriesRemaining ((claim_daily_action cfgC4 0 dbC4 1).2) 86400 := by
  refine ⟨by decide, by decide, fun hc => ?_⟩
  have hb := hc 0 0 (by decide)
  omega

/-- Configuration for the C4 witness: the codec round-trips timestamp 100. -/
def cfgW4 : Config :=
  { ADMIN_ID := 99, REF_BONUS := 1/100, DAILY_BONUS := 1/1000, MIN_WITHDRAW := 1/2,
    isoOf := fun _ => "now", parseIso := fun s => if s = "now" then some 100 else none }

/-- Verified user 1 with no bonus claimed yet. -/
def dbW4 : DB :=
  setUser initDB 1 (userV 0 none none)

/-- Witness for C4 (amended): user 1 claims at time 100 with no stored
timestamp — granted, balance credited, timestamp stored; a second claim
at time 200 fails with a cooldown report. -/
theorem C4_amended_daily_witness :
    user_is_verified dbW4 1 = true ∧
    lastParsed cfgW4 dbW4 1 = none ∧
    ((claim_daily_action cfgW4 100 dbW4 1).2 = ClaimResult.granted ∧
      balanceOf (claim_daily_action cfgW4 100 dbW4 1).1 1 = balanceOf dbW4 1 + cfgW4.DAILY_BONUS ∧
      (∃ rr, (claim_daily_action cfgW4 100 dbW4 1).1.users 1 = some rr ∧
        rr.last_bonus = some (cfgW4.isoOf 100))) ∧
    (∃ h m, (claim_daily_action cfgW4 200 (claim_daily_action cfgW4 100 dbW4 1).1 1).2 =
      ClaimResult.cooldown h m) := by
  have hthm := C4_amended_daily cfgW4 dbW4 1 100 (by decide)
  have hnone : lastParsed cfgW4 dbW4 1 = none := by decide
  refine ⟨by decide, hnone, hthm.1 hnone, ?_⟩
  exact hthm.2.2.2.2 (by decide) (hthm.1 hnone).1 200 (by decide) (by decide)

/-- Operation sequence exercising every ledger-mutating handler once. -/
def opsW : List Op :=
  [Op.start 2 "bob" (some 1), Op.claimDaily 10 2, Op.withdraw 1,
    Op.adminClick 99 true 1, Op.adminReason 99 "no"]

/-- Witness for C8: under the default non-negative bonus amounts, running
a concrete sequence with one of each operation keeps every stored
balance non-negative. -/
theorem C8_nonneg_witness :
    (0:ℚ) ≤ cfg0.REF_BONUS ∧ (0:ℚ) ≤ cfg0.DAILY_BONUS ∧
    NonnegBalances (runOps cfg0 opsW).1 := by
  refine ⟨by norm_num [cfg0], by norm_num [cfg0], ?_⟩
  exact C8_nonneg cfg0 (by norm_num [cfg0]) (by norm_num [cfg0]) opsW

end BnbBot
